import Mathlib

/-!
# Verification of the dataframe-go Series core

Shallow embedding of `series_float64.go`, `series_int64.go` and
`forecast/ets.go`.

Modelling conventions:

* Go `float64` is modelled as `Option ℚ`: `none` is the NaN sentinel
  (`nan()` / `isNaN` in the source), `some q` is an ordinary value.  All
  concrete scenarios in the claims use small dyadic rationals, on which
  IEEE-754 double arithmetic is exact, so the rational embedding is faithful
  there.  IEEE NaN propagation through `+`/`*` is modelled by `none`
  absorption.
* Go `*int64` slots are modelled as `Option ℤ` (`none` = nil pointer).
* Go slices are Lean lists.  The slice capacity is tracked in a `cap` field
  because `Prepend` branches on `cap > len`.  Go's `append` growth policy for
  small slices (allocate at least double) is modelled by `goGrow`; its exact
  value never matters to the claims except through the `cap > len` test,
  which is decided exactly for the concrete inputs used (capacities set
  explicitly at construction).
* Locking (`sync.RWMutex`, the `DontLock` option, `Lock`/`Unlock`) and
  `context.Context` cancellation are concurrency plumbing with no effect on
  the sequential data transformation and are elided; `Sort`'s `SortDesc`
  option is kept as a `Bool` parameter.
* Go panics (index out of range, `panic(err)` in `Copy`/`Table`) are fatal
  faults, modelled as `Except.error`; recoverable Go `error` returns are also
  `Except.error` but on functions whose Go signature has an `error` result.
  Each definition's doc comment says which it is.
* The dynamic `interface{}` parameters are modelled by the closed set of
  variants the source switches on (scalar-or-nil, batch); the reflective
  text-parsing fallback (`strconv.Parse*`, a fatal fault on failure) is
  outside the modelled input domain, as no claim exercises it.
-/

namespace DataFrame

/-- Decidable equality of `Except` results (for evaluating the embedding on
concrete inputs). -/
instance {ε α : Type} [DecidableEq ε] [DecidableEq α] : DecidableEq (Except ε α) :=
  fun x y =>
  match x, y with
  | .ok a, .ok b =>
      if h : a = b then isTrue (by rw [h])
      else isFalse (by intro hh; cases hh; exact h rfl)
  | .error a, .error b =>
      if h : a = b then isTrue (by rw [h])
      else isFalse (by intro hh; cases hh; exact h rfl)
  | .ok _, .error _ => isFalse (by intro hh; cases hh)
  | .error _, .ok _ => isFalse (by intro hh; cases hh)

/-- A Go float64: `none` is the NaN sentinel, `some q` a real value. -/
abbrev F64 := Option ℚ

/-- `isNaN` from the repository: detects the sentinel. -/
def isNaN (v : F64) : Bool := v.isNone

/-- `nan()` from the repository: the sentinel value. -/
def nanF : F64 := none

/-- IEEE addition restricted to the embedding: NaN absorbs. -/
def fAdd (a b : F64) : F64 :=
  match a, b with
  | some x, some y => some (x + y)
  | _, _ => none

/-- Multiplication of a float64 by a plain (non-NaN) coefficient; NaN absorbs
(in IEEE, `c * NaN = NaN` for every `c`). -/
def fMulC (c : ℚ) (v : F64) : F64 := v.map (fun x => c * x)

/-- Go's `append` capacity growth for small slices: when the needed length
exceeds the capacity, at least double the capacity (model of the runtime's
growth policy; the claims never depend on its exact value). -/
def goGrow (oldCap need : Nat) : Nat :=
  if need ≤ oldCap then oldCap else max need (2 * oldCap)

/-- Insertion into a list at position `row` (the effect of the source's
`append`-one-then-`copy`-shift idiom, and of
`append(s.Values[:row], append(V, s.Values[row:]...)...)` for a batch).
Callers in the source always use `row ≤ length` (larger rows are a fatal
indexing fault in Go, outside the modelled domain). -/
def listInsertAt (row : Nat) (v : α) (l : List α) : List α :=
  l.take row ++ v :: l.drop row

/-- Batch insertion of a block at position `row`. -/
def listInsertBlock (row : Nat) (vs : List α) (l : List α) : List α :=
  l.take row ++ vs ++ l.drop row

/-- Modelled from the spec: the `Range` value type is not under `src/` (only
its callers are).  §3: "a value object describing {no bound given → whole
sequence} or {explicit start, end}". -/
inductive RangeSpec where
  | whole : RangeSpec
  | bounds (start stop : Int) : RangeSpec
deriving DecidableEq, Repr

/-- Modelled from the spec: `Limits(rowCount) -> (start, end, error)`.
§3: "resolving against a row count N must fail with an error if start>end,
start<0, or end≥N; on success yields an inclusive [start,end] pair"; no bound
given means the whole sequence (start 0, end N−1, so row count 0 fails the
start>end test). -/
def RangeSpec.Limits (r : RangeSpec) (rowCount : Nat) : Except String (Int × Int) :=
  match r with
  | .whole =>
      if (0 : Int) > (rowCount : Int) - 1 ∨ (0 : Int) < 0 ∨
          (rowCount : Int) - 1 ≥ (rowCount : Int) then
        .error "range invalid"
      else
        .ok (0, (rowCount : Int) - 1)
  | .bounds a b =>
      if a > b ∨ a < 0 ∨ b ≥ (rowCount : Int) then
        .error "range invalid"
      else
        .ok (a, b)

/-- Modelled from the spec: `SeriesInit` (pre-size / pre-capacity) is declared
outside `src/`; §3 Lifecycle: "constructed with an optional pre-size and/or
pre-capacity". -/
structure SeriesInit where
  Size : Nat
  Capacity : Nat
deriving DecidableEq, Repr

/-- Modelled from the spec: the canonical default formatter, declared outside
`src/`; §3: "defaults to a canonical formatter that renders absence as the
literal NaN". -/
def DefaultValueFormatterF : F64 → String :=
  fun v => match v with
  | none => "NaN"
  | some q => toString q

/-- `SeriesFloat64` (series_float64.go): dense-sentinel storage.  `cap` is the
Go slice capacity of `Values` (needed because `Prepend` branches on it);
`nilCount` is a Go `int`, hence `ℤ`. -/
structure SeriesFloat64 where
  valFormatter : F64 → String
  name : String
  Values : List F64
  nilCount : Int
  cap : Nat

/-- The scalar arm of `valToPointer`: `nil` → NaN, nil `*float64` → NaN,
`float64` → passthrough (an input NaN bit pattern stays NaN).  All three
collapse to the identity on `Option ℚ`. -/
def SeriesFloat64.valToPointer (_s : SeriesFloat64) (v : F64) : F64 := v

/-- The closed set of `interface{}` values the float series' `insert`
switches on: a `[]float64` batch, or a scalar (`nil` / `*float64` /
`float64`). -/
inductive F64Val where
  | scalar (v : F64) : F64Val
  | batch (vs : List F64) : F64Val

/-- `NewSeriesFloat64`.  The source's loop writes `vals[idx]` over the
zero-filled `make` result for `idx < size` and appends beyond, then (when
`vals` is shorter than `size`) back-fills the remainder with NaN and adds the
shortfall to `nilCount`; the closed form below is that loop's result.  `cap`
after the trailing appends follows `goGrow` once per append. -/
def newSeriesFloat64 (name : String) (init : Option SeriesInit) (vals : List F64) :
    SeriesFloat64 :=
  let size := match init with | none => 0 | some i => i.Size
  let cap0 := max size (match init with | none => 0 | some i => i.Capacity)
  let nilV : Int := vals.countP (fun v => isNaN v)
  if vals.length < size then
    { valFormatter := DefaultValueFormatterF
      name := name
      Values := vals ++ List.replicate (size - vals.length) nanF
      nilCount := nilV + ((size : Int) - (vals.length : Int))
      cap := cap0 }
  else
    { valFormatter := DefaultValueFormatterF
      name := name
      Values := vals
      nilCount := nilV
      cap := (List.range (vals.length - size)).foldl
        (fun c k => goGrow c (size + k + 1)) cap0 }

/-- `NRows` (sans locking). -/
def SeriesFloat64.nRows (s : SeriesFloat64) : Nat := s.Values.length

/-- `Value(row)`: returns nil when the slot holds the sentinel, else the
value; a row outside `[0,N)` is a fatal indexing fault (`error`). -/
def SeriesFloat64.value (s : SeriesFloat64) (row : Nat) : Except String F64 :=
  if row < s.Values.length then
    .ok (s.Values.getD row nanF)
  else
    .error "runtime error: index out of range"

/-- The private `insert` of series_float64.go: the `[]float64` batch arm
counts the batch's NaNs into `nilCount` and splices the block in; the scalar
arm shifts right and counts the new slot if NaN. -/
def SeriesFloat64.insertRaw (s : SeriesFloat64) (row : Nat) (val : F64Val) :
    SeriesFloat64 :=
  match val with
  | .batch V =>
      { s with
        nilCount := s.nilCount + (V.countP (fun v => isNaN v) : Int)
        Values := listInsertBlock row V s.Values
        cap := goGrow s.cap (s.Values.length + V.length) }
  | .scalar v =>
      { s with
        Values := listInsertAt row (s.valToPointer v) s.Values
        nilCount := s.nilCount + (if isNaN (s.valToPointer v) then 1 else 0)
        cap := goGrow s.cap (s.Values.length + 1) }

/-- `Insert(row, val)` (public; locking elided). -/
def SeriesFloat64.insertAt (s : SeriesFloat64) (row : Nat) (val : F64Val) :
    SeriesFloat64 :=
  s.insertRaw row val

/-- `Prepend(val)`: with spare capacity, shift right in place and write the
head — the source updates `Values` only, not `nilCount`, on this path;
otherwise fall through to `insert(0, val)`. -/
def SeriesFloat64.prepend (s : SeriesFloat64) (val : F64) : SeriesFloat64 :=
  if s.Values.length < s.cap then
    { s with Values := s.valToPointer val :: s.Values }
  else
    s.insertRaw 0 (.scalar val)

/-- `Append(val)`: reads the current row count, inserts there, returns the
row index. -/
def SeriesFloat64.append (s : SeriesFloat64) (val : F64Val) : SeriesFloat64 × Nat :=
  let row := s.nRows
  (s.insertRaw row val, row)

/-- `Remove(row)`: decrement `nilCount` when the removed slot is the
sentinel, then delete the row; an out-of-range row is a fatal indexing
fault. -/
def SeriesFloat64.remove (s : SeriesFloat64) (row : Nat) : Except String SeriesFloat64 :=
  if row < s.Values.length then
    .ok { s with
          nilCount := s.nilCount - (if isNaN (s.Values.getD row nanF) then 1 else 0)
          Values := s.Values.take row ++ s.Values.drop (row + 1) }
  else
    .error "runtime error: index out of range"

/-- `Update(row, val)`: reconcile `nilCount` on absent↔present transitions and
overwrite; an out-of-range row is a fatal indexing fault. -/
def SeriesFloat64.update (s : SeriesFloat64) (row : Nat) (val : F64) :
    Except String SeriesFloat64 :=
  if row < s.Values.length then
    let newVal := s.valToPointer val
    let old := s.Values.getD row nanF
    .ok { s with
          nilCount :=
            if isNaN old ∧ ¬ isNaN newVal then s.nilCount - 1
            else if ¬ isNaN old ∧ isNaN newVal then s.nilCount + 1
            else s.nilCount
          Values := s.Values.set row newVal }
  else
    .error "runtime error: index out of range"

/-- `Swap(row1, row2)`: an immediate no-op when the rows coincide (before any
index is touched), otherwise exchange the two slots; invalid distinct rows
are a fatal indexing fault.  Rows are Go `int`s, hence `ℤ`. -/
def SeriesFloat64.swap (s : SeriesFloat64) (row1 row2 : Int) :
    Except String SeriesFloat64 :=
  if row1 = row2 then
    .ok s
  else if 0 ≤ row1 ∧ row1 < (s.Values.length : Int) ∧
          0 ≤ row2 ∧ row2 < (s.Values.length : Int) then
    let v1 := s.Values.getD row1.toNat nanF
    let v2 := s.Values.getD row2.toNat nanF
    .ok { s with Values := (s.Values.set row1.toNat v2).set row2.toNat v1 }
  else
    .error "runtime error: index out of range"

/-- `IsLessThanFunc(a, b)`: nil `a` → true (both sub-branches of the source
return true), nil `b` → false, else `<` on the floats. -/
def SeriesFloat64.isLessThanFunc (_s : SeriesFloat64) (a b : F64) : Bool :=
  match a with
  | none => true
  | some x =>
      match b with
      | none => false
      | some y => decide (x < y)

/-- `IsEqualFunc(a, b)`. -/
def SeriesFloat64.isEqualFunc (_s : SeriesFloat64) (a b : F64) : Bool :=
  match a, b with
  | none, none => true
  | none, some _ => false
  | some _, none => false
  | some x, some y => decide (x = y)

/-- `ContainsNil()`. -/
def SeriesFloat64.containsNil (s : SeriesFloat64) : Bool := decide (s.nilCount > 0)

/-!
## Go's stable sort (`sort.SliceStable`)

`Sort` delegates to the standard library's `sort.SliceStable`, which for
slices of at most 20 elements (its `blockSize`) is exactly the swap-based
insertion sort

    for i := a + 1; i < b; i++ {
      for j := i; j > a && less(j, j-1); j-- { swap(j, j-1) }
    }

(beyond 20 elements it additionally merges the insertion-sorted blocks with
`symMerge`).  We model this small-slice regime: the inner loop bubbles
element `x` leftwards past each neighbour `e` while `less(x, e)` holds, i.e.
inserts `x` into the already-processed prefix scanning from its right end.
`insRev` performs that scan on the reversed prefix; theorem statements that
quantify over series restrict to row count ≤ 20, where this is bit-for-bit
Go's algorithm.  The comparator is taken as an arbitrary `Bool` function
because `Sort`'s comparator is not a strict weak order (its tie behaviour is
exactly what the claims are about).
-/

/-- Insert `x` into `rl` (a reversed prefix), moving past each element `e`
while `less x e` holds — the inner `for j` loop of Go's insertion sort viewed
from the right end of the prefix. -/
def insRev (less : α → α → Bool) (x : α) : List α → List α
  | [] => [x]
  | e :: es => if less x e then e :: insRev less x es else x :: e :: es

/-- Insert `x` at the right end of prefix `l` and bubble it left (one step of
Go's insertion sort). -/
def insGo (less : α → α → Bool) (x : α) (l : List α) : List α :=
  (insRev less x l.reverse).reverse

/-- Go's `insertionSort_func`: process the slice left to right, bubbling each
element into the sorted prefix. -/
def insertionSortGo (less : α → α → Bool) (l : List α) : List α :=
  l.foldl (fun acc x => insGo less x acc) []

/-- The comparator closure of `SeriesFloat64.Sort`: ascending result, with
the descending flag applied as a deferred negation of the returned Bool
(`defer func() { if sortDesc { ret = !ret } }()`). -/
def sortCmpF (sortDesc : Bool) (a b : F64) : Bool :=
  let ret : Bool :=
    if isNaN a then
      (if isNaN b then true else true)
    else if isNaN b then
      false
    else
      decide ((a.getD 0) < (b.getD 0))
  if sortDesc then !ret else ret

/-- `Sort(opts)` on the float series (locking elided; `sortDesc` is
`opts.SortDesc`), in the ≤ 20-row regime of `sort.SliceStable`. -/
def SeriesFloat64.sort (s : SeriesFloat64) (sortDesc : Bool) : SeriesFloat64 :=
  { s with Values := insertionSortGo (sortCmpF sortDesc) s.Values }

/-- The same comparator lifted to index-tagged elements (tag = original row).
`sort.SliceStable` permutes slice elements; since equal floats are
indistinguishable, stability is a statement about this tagged run, whose
comparisons and swaps coincide step for step with the untagged one. -/
def sortCmpFTag (sortDesc : Bool) (a b : Nat × F64) : Bool :=
  sortCmpF sortDesc a.2 b.2

/-- `Copy(r...)`: an empty source short-circuits to an empty copy carrying
the source's formatter, name and `nilCount` (the Range is never resolved);
otherwise resolve the (defaulted) Range — a failure is `panic(err)`, a fatal
fault — and snapshot `Values[start : end+1]`.  The copy's `nilCount` is the
source's whole `nilCount` field. -/
def SeriesFloat64.copy (s : SeriesFloat64) (r : List RangeSpec) :
    Except String SeriesFloat64 :=
  if s.Values.length = 0 then
    .ok { valFormatter := s.valFormatter, name := s.name, Values := [],
          nilCount := s.nilCount, cap := 0 }
  else
    let rng := match r with | [] => RangeSpec.whole | x :: _ => x
    match rng.Limits s.Values.length with
    | .error e => .error e
    | .ok (start, stop) =>
        .ok { valFormatter := s.valFormatter
              name := s.name
              Values := (s.Values.drop start.toNat).take (stop.toNat + 1 - start.toNat)
              nilCount := s.nilCount
              cap := stop.toNat + 1 - start.toNat }

/-- `Table(r...)`, up to the data rows handed to the external `tablewriter`
collaborator (rendering is out of scope per the spec): zero rows skip the
Range resolution entirely and produce an empty body; otherwise a Limits
failure is `panic(err)` (fatal fault), and each in-range row is formatted. -/
def SeriesFloat64.table (s : SeriesFloat64) (r : List RangeSpec) :
    Except String (List (List String)) :=
  let rng := match r with | [] => RangeSpec.whole | x :: _ => x
  if 0 < s.Values.length then
    match rng.Limits s.Values.length with
    | .error e => .error e
    | .ok (start, stop) =>
        .ok ((List.range' start.toNat (stop.toNat + 1 - start.toNat)).map
          (fun row => [toString row ++ ":", s.valFormatter (s.Values.getD row nanF)]))
  else
    .ok []

/-!
## The boxed-optional variant (`series_int64.go`)

Storage is `[]*int64`; a `nil` pointer is the absent state, modelled as
`Option ℤ`.  The Go code copies pointed-to values when coercing, so pointer
aliasing never leaks: value semantics are faithful.
-/

/-- A Go `*int64` slot: `none` = nil pointer (absent). -/
abbrev I64 := Option ℤ

/-- Modelled from the spec: the default formatter for the integer variant
(declared outside `src/`); absence renders as "NaN". -/
def DefaultValueFormatterI : I64 → String :=
  fun v => match v with
  | none => "NaN"
  | some q => toString q

/-- `SeriesInt64` (series_int64.go). -/
structure SeriesInt64 where
  valFormatter : I64 → String
  name : String
  values : List I64
  nilCount : Int
  cap : Nat

/-- The scalar arm of the int64 `valToPointer`: `nil` → nil, nil `*int64` →
nil, `*int64`/`int64` → a fresh copy of the value.  Identity on `Option ℤ`. -/
def SeriesInt64.valToPointer (_s : SeriesInt64) (v : I64) : I64 := v

/-- The closed set of `interface{}` values the int64 `insert` switches on:
a raw `[]int64` batch (all present), a `[]*int64` batch (mixed), or a
scalar. -/
inductive I64Val where
  | scalar (v : I64) : I64Val
  | batchRaw (vs : List ℤ) : I64Val
  | batchOpt (vs : List I64) : I64Val

/-- `NewSeriesInt64`: same loop as the float variant, except `make` fills
with nil pointers (already the absent state) so the shortfall needs no
back-fill, only the `nilCount` adjustment. -/
def newSeriesInt64 (name : String) (init : Option SeriesInit) (vals : List I64) :
    SeriesInt64 :=
  let size := match init with | none => 0 | some i => i.Size
  let cap0 := max size (match init with | none => 0 | some i => i.Capacity)
  let nilV : Int := vals.countP (fun v => v.isNone)
  if vals.length < size then
    { valFormatter := DefaultValueFormatterI
      name := name
      values := vals ++ List.replicate (size - vals.length) none
      nilCount := nilV + ((size : Int) - (vals.length : Int))
      cap := cap0 }
  else
    { valFormatter := DefaultValueFormatterI
      name := name
      values := vals
      nilCount := nilV
      cap := (List.range (vals.length - size)).foldl
        (fun c k => goGrow c (size + k + 1)) cap0 }

/-- `NRows` (sans locking). -/
def SeriesInt64.nRows (s : SeriesInt64) : Nat := s.values.length

/-- `Value(row)`: nil pointer → nil, else the pointed-to value; out-of-range
rows are a fatal indexing fault. -/
def SeriesInt64.value (s : SeriesInt64) (row : Nat) : Except String I64 :=
  if row < s.values.length then
    .ok (s.values.getD row none)
  else
    .error "runtime error: index out of range"

/-- The private `insert` of series_int64.go: a `[]int64` batch is boxed
element-wise (all present, `nilCount` untouched); a `[]*int64` batch counts
its nil entries; a scalar shifts right and counts a nil slot (the source
applies `valToPointer` twice on this path — both applications are the
identity here). -/
def SeriesInt64.insertRaw (s : SeriesInt64) (row : Nat) (val : I64Val) :
    SeriesInt64 :=
  match val with
  | .batchRaw V =>
      { s with
        values := listInsertBlock row (V.map some) s.values
        cap := goGrow s.cap (s.values.length + V.length) }
  | .batchOpt V =>
      { s with
        nilCount := s.nilCount + (V.countP (fun v => v.isNone) : Int)
        values := listInsertBlock row V s.values
        cap := goGrow s.cap (s.values.length + V.length) }
  | .scalar v =>
      { s with
        values := listInsertAt row (s.valToPointer v) s.values
        nilCount := s.nilCount + (if (s.valToPointer v).isNone then 1 else 0)
        cap := goGrow s.cap (s.values.length + 1) }

/-- `Insert(row, val)` (public; locking elided). -/
def SeriesInt64.insertAt (s : SeriesInt64) (row : Nat) (val : I64Val) :
    SeriesInt64 :=
  s.insertRaw row val

/-- `Prepend(val)`: the spare-capacity path shifts in place and writes the
head without touching `nilCount` (mirroring the source); otherwise
`insert(0, val)`. -/
def SeriesInt64.prepend (s : SeriesInt64) (val : I64) : SeriesInt64 :=
  if s.values.length < s.cap then
    { s with values := s.valToPointer val :: s.values }
  else
    s.insertRaw 0 (.scalar val)

/-- `Append(val)`: insert at the current row count, return that row. -/
def SeriesInt64.append (s : SeriesInt64) (val : I64Val) : SeriesInt64 × Nat :=
  let row := s.nRows
  (s.insertRaw row val, row)

/-- `Remove(row)`. -/
def SeriesInt64.remove (s : SeriesInt64) (row : Nat) : Except String SeriesInt64 :=
  if row < s.values.length then
    .ok { s with
          nilCount := s.nilCount - (if (s.values.getD row none).isNone then 1 else 0)
          values := s.values.take row ++ s.values.drop (row + 1) }
  else
    .error "runtime error: index out of range"

/-- `Update(row, val)`. -/
def SeriesInt64.update (s : SeriesInt64) (row : Nat) (val : I64) :
    Except String SeriesInt64 :=
  if row < s.values.length then
    let newVal := s.valToPointer val
    let old := s.values.getD row none
    .ok { s with
          nilCount :=
            if old.isNone ∧ ¬ newVal.isNone then s.nilCount - 1
            else if ¬ old.isNone ∧ newVal.isNone then s.nilCount + 1
            else s.nilCount
          values := s.values.set row newVal }
  else
    .error "runtime error: index out of range"

/-- `Swap(row1, row2)`: identical structure to the float variant. -/
def SeriesInt64.swap (s : SeriesInt64) (row1 row2 : Int) :
    Except String SeriesInt64 :=
  if row1 = row2 then
    .ok s
  else if 0 ≤ row1 ∧ row1 < (s.values.length : Int) ∧
          0 ≤ row2 ∧ row2 < (s.values.length : Int) then
    let v1 := s.values.getD row1.toNat none
    let v2 := s.values.getD row2.toNat none
    .ok { s with values := (s.values.set row1.toNat v2).set row2.toNat v1 }
  else
    .error "runtime error: index out of range"

/-- `IsLessThanFunc(a, b)` of the int64 variant: nil `a` → true in both
sub-branches, nil `b` → false, else `<`. -/
def SeriesInt64.isLessThanFunc (_s : SeriesInt64) (a b : I64) : Bool :=
  match a with
  | none => true
  | some x =>
      match b with
      | none => false
      | some y => decide (x < y)

/-- The comparator closure of `SeriesInt64.Sort` with its deferred
negation. -/
def sortCmpI (sortDesc : Bool) (a b : I64) : Bool :=
  let ret : Bool :=
    if a.isNone then
      (if b.isNone then true else true)
    else if b.isNone then
      false
    else
      decide ((a.getD 0) < (b.getD 0))
  if sortDesc then !ret else ret

/-- `Sort(opts)` on the int64 series (≤ 20-row regime of
`sort.SliceStable`). -/
def SeriesInt64.sort (s : SeriesInt64) (sortDesc : Bool) : SeriesInt64 :=
  { s with values := insertionSortGo (sortCmpI sortDesc) s.values }

/-- `Copy(r...)` of the int64 variant: same structure as the float one,
including the whole-`nilCount` snapshot. -/
def SeriesInt64.copy (s : SeriesInt64) (r : List RangeSpec) :
    Except String SeriesInt64 :=
  if s.values.length = 0 then
    .ok { valFormatter := s.valFormatter, name := s.name, values := [],
          nilCount := s.nilCount, cap := 0 }
  else
    let rng := match r with | [] => RangeSpec.whole | x :: _ => x
    match rng.Limits s.values.length with
    | .error e => .error e
    | .ok (start, stop) =>
        .ok { valFormatter := s.valFormatter
              name := s.name
              values := (s.values.drop start.toNat).take (stop.toNat + 1 - start.toNat)
              nilCount := s.nilCount
              cap := stop.toNat + 1 - start.toNat }

/-- Stability order on tagged float slots: equal present values keep their
original row order. -/
def dupOrderF (a b : Nat × F64) : Prop := (a.2 = b.2 ∧ a.2 ≠ none) → a.1 < b.1

instance : DecidableRel dupOrderF := fun a b => by
  unfold dupOrderF
  infer_instance

/-- The int64 comparator lifted to index-tagged elements. -/
def sortCmpITag (sortDesc : Bool) (a b : Nat × I64) : Bool :=
  sortCmpI sortDesc a.2 b.2

/-- Stability order on tagged int64 slots. -/
def dupOrderI (a b : Nat × I64) : Prop := (a.2 = b.2 ∧ a.2 ≠ none) → a.1 < b.1

instance : DecidableRel dupOrderI := fun a b => by
  unfold dupOrderI
  infer_instance

/-!
## Forecasting leaf (`forecast/ets.go`)

`SimpleExponentialSmoothing` consumes a float series through `Values` and a
`Range`; the `context.Context` cancellation polls are concurrency plumbing
and elided (they only ever abort with the context's error).
-/

/-- The historical loop of `SimpleExponentialSmoothing`:
`var st float64` then `for i := start; i < end+1; i++`, with the first
iteration (`i == start`) seeding `st = xt` and later ones computing
`st = α*xt + (1-α)*st`.  The Bool component is the "first iteration"
condition `i == start`. -/
def sesLevelLoop (α : ℚ) (window : List F64) : F64 :=
  (window.foldl
    (fun (acc : F64 × Bool) xt =>
      if acc.2 then (xt, false)
      else (fAdd (fMulC α xt) (fMulC (1 - α) acc.1), false))
    (some 0, true)).1

/-- The forecast loop: `m` iterations of
`st = α*s.Values[end] + (1-α)*st`, each appended to the result. -/
def sesForecastLoop (α : ℚ) (xend : F64) : Nat → F64 → List F64
  | 0, _ => []
  | n + 1, st =>
      let st2 := fAdd (fMulC α xend) (fMulC (1 - α) st)
      st2 :: sesForecastLoop α xend n st2

/-- `SimpleExponentialSmoothing(ctx, s, α, m, r...)`: default the Range,
reject an empty series, resolve limits (a recoverable error here), validate
`end-start ≥ 1`, `m > 0`, `α ∈ [0,1]`, then run the two loops and wrap the
forecast in a fresh series (`NewSeriesFloat64("forecast", nil)` with its
`Values` field overwritten, so `nilCount` stays 0). -/
def simpleExponentialSmoothing (s : SeriesFloat64) (α : ℚ) (m : Int)
    (r : List RangeSpec) : Except String SeriesFloat64 :=
  let rng := match r with | [] => RangeSpec.whole | x :: _ => x
  let count := s.Values.length
  if count = 0 then
    .error "no values in series range"
  else
    match rng.Limits count with
    | .error e => .error e
    | .ok (start, stop) =>
        if stop - start < 1 then
          .error "no values in series range"
        else if m ≤ 0 then
          .error "m must be greater than 0"
        else if α < 0 ∨ α > 1 then
          .error "must be between [0,1]"
        else
          let window := (s.Values.drop start.toNat).take (stop.toNat + 1 - start.toNat)
          let st := sesLevelLoop α window
          let xend := s.Values.getD stop.toNat nanF
          .ok { valFormatter := DefaultValueFormatterF
                name := "forecast"
                Values := sesForecastLoop α xend m.toNat st
                nilCount := 0
                cap := m.toNat }

/-- The spec's level recursion, written from its words for refinement
comparison: "S₀ = x[start], Sᵢ = α·xᵢ + (1−α)·Sᵢ₋₁ over the historical
window". -/
def specSESLevel (α : ℚ) (x0 : F64) (rest : List F64) : F64 :=
  rest.foldl (fun st xt => fAdd (fMulC α xt) (fMulC (1 - α) st)) x0

/-- The spec's forecast recursion, written from its words for refinement
comparison: "m forward steps Sₜ₊₁ = α·x[end] + (1−α)·Sₜ". -/
def specSESForecast (α : ℚ) (xend : F64) (st : F64) : Nat → List F64
  | 0 => []
  | n + 1 =>
      let st2 := fAdd (fMulC α xend) (fMulC (1 - α) st)
      st2 :: specSESForecast α xend st2 n

/-!
## Shared lemmas
-/

/-- A successful `Limits` resolution yields inclusive bounds
`0 ≤ start ≤ end < rowCount`. -/
theorem rangeSpec_limits_ok {r : RangeSpec} {n : Nat} {a b : Int}
    (h : r.Limits n = Except.ok (a, b)) : 0 ≤ a ∧ a ≤ b ∧ b < (n : Int) := by
  cases r with
  | whole =>
      simp only [RangeSpec.Limits] at h
      split at h
      · exact absurd h (by simp)
      · rename_i hcond
        push_neg at hcond
        cases Except.ok.inj h
        omega
  | bounds x y =>
      simp only [RangeSpec.Limits] at h
      split at h
      · exact absurd h (by simp)
      · rename_i hcond
        push_neg at hcond
        cases Except.ok.inj h
        omega

/-!
## Claims
-/

/-- C5: for both Series variants, `IsLessThanFunc(a, b)` returns true
whenever `a` is the absence marker — for every `b`, including `b` absent —
and returns false whenever `a` is a present value and `b` is the absence
marker: absence compares as less than everything, including other
absences. -/
theorem c5_isLessThanFunc_absence :
    (∀ (s : SeriesFloat64) (b : F64), s.isLessThanFunc none b = true) ∧
    (∀ (s : SeriesFloat64) (x : ℚ), s.isLessThanFunc (some x) none = false) ∧
    (∀ (s : SeriesInt64) (b : I64), s.isLessThanFunc none b = true) ∧
    (∀ (s : SeriesInt64) (x : ℤ), s.isLessThanFunc (some x) none = false) :=
  ⟨fun _ _ => rfl, fun _ _ => rfl, fun _ _ => rfl, fun _ _ => rfl⟩

/-- C6: for every Series (either variant) and every scalar value `v`
(present or the absence marker), `Append(v)` returns the pre-call length as
the assigned row index, and `Value` on that row then yields `v` (the absence
marker when `v` was absence). -/
theorem c6_append_value_roundtrip :
    (∀ (s : SeriesFloat64) (v : F64),
      (s.append (F64Val.scalar v)).2 = s.nRows ∧
      (s.append (F64Val.scalar v)).1.value s.nRows = Except.ok v) ∧
    (∀ (s : SeriesInt64) (v : I64),
      (s.append (I64Val.scalar v)).2 = s.nRows ∧
      (s.append (I64Val.scalar v)).1.value s.nRows = Except.ok v) := by
  constructor
  · intro s v
    refine ⟨rfl, ?_⟩
    simp [SeriesFloat64.append, SeriesFloat64.insertRaw, SeriesFloat64.value,
      SeriesFloat64.nRows, SeriesFloat64.valToPointer, listInsertAt, List.getD]
  · intro s v
    refine ⟨rfl, ?_⟩
    simp [SeriesInt64.append, SeriesInt64.insertRaw, SeriesInt64.value,
      SeriesInt64.nRows, SeriesInt64.valToPointer, listInsertAt, List.getD]

/-- C10: for every zero-row Series (either variant) and every Range argument
whatsoever — including out-of-bounds explicit bounds — `Copy` returns an
empty Series carrying the source's formatter, name and `nilCount`, without
ever resolving the Range: the panic branch is unreachable at zero rows. -/
theorem c10_copy_zero_rows :
    (∀ (fmt : F64 → String) (nm : String) (nc : Int) (cp : Nat) (r : List RangeSpec),
      (SeriesFloat64.mk fmt nm [] nc cp).copy r =
        Except.ok (SeriesFloat64.mk fmt nm [] nc 0)) ∧
    (∀ (fmt : I64 → String) (nm : String) (nc : Int) (cp : Nat) (r : List RangeSpec),
      (SeriesInt64.mk fmt nm [] nc cp).copy r =
        Except.ok (SeriesInt64.mk fmt nm [] nc 0)) :=
  ⟨fun _ _ _ _ _ => rfl, fun _ _ _ _ _ => rfl⟩

/-- C3, counterexample: `Copy` on a zero-row series with the default
`Range{}` returns a successful (empty) copy, not a recoverable error value —
the claim that every such caller yields an error is false at this input. -/
theorem c3_counterexample :
    (newSeriesFloat64 "price" none []).copy [] =
      Except.ok { valFormatter := DefaultValueFormatterF, name := "price",
                  Values := [], nilCount := 0, cap := 0 } ∧
    ∀ e, (newSeriesFloat64 "price" none []).copy [] ≠ Except.error e := by
  have h : (newSeriesFloat64 "price" none []).copy [] =
      Except.ok { valFormatter := DefaultValueFormatterF, name := "price",
                  Values := [], nilCount := 0, cap := 0 } := rfl
  exact ⟨h, fun e he => by simp [h] at he⟩

/-- C3, amended: `Range{}` resolved against row count 0 does yield a
recoverable error, and no caller faults: `SimpleExponentialSmoothing` on a
zero-row series returns a recoverable error before resolving the Range,
while `Copy` and `Table` never resolve the Range at zero rows and return
normally (an empty copy, resp. an empty-bodied table) instead of an error. -/
theorem c3_zero_rows_no_fault :
    (∃ e, RangeSpec.whole.Limits 0 = Except.error e) ∧
    (∀ (fmt : F64 → String) (nm : String) (nc : Int) (cp : Nat) (r : List RangeSpec),
      (SeriesFloat64.mk fmt nm [] nc cp).copy r =
        Except.ok (SeriesFloat64.mk fmt nm [] nc 0)) ∧
    (∀ (fmt : F64 → String) (nm : String) (nc : Int) (cp : Nat) (r : List RangeSpec),
      (SeriesFloat64.mk fmt nm [] nc cp).table r = Except.ok []) ∧
    (∀ (fmt : F64 → String) (nm : String) (nc : Int) (cp : Nat) (α : ℚ) (m : Int)
        (r : List RangeSpec),
      simpleExponentialSmoothing (SeriesFloat64.mk fmt nm [] nc cp) α m r =
        Except.error "no values in series range") :=
  ⟨⟨"range invalid", rfl⟩, fun _ _ _ _ _ => rfl, fun _ _ _ _ _ => rfl,
   fun _ _ _ _ _ _ _ => rfl⟩

/-- C1: evaluation at the failing input.  A series built with spare capacity
(`Size 1, Capacity 2`, one present value) and then `Prepend(nil)` takes the
in-place fast path, which never updates `nilCount`: storage gains an absent
head slot while `nilCount` stays 0, breaking the invariant that `nilCount`
equals the number of absent slots.  Both variants exhibit the same slip. -/
theorem c1_prepend_fast_path_breaks_nilcount :
    (((newSeriesFloat64 "x" (some ⟨1, 2⟩) [some 1]).prepend none).nilCount = 0 ∧
     ((newSeriesFloat64 "x" (some ⟨1, 2⟩) [some 1]).prepend none).Values =
       [none, some 1] ∧
     (((newSeriesFloat64 "x" (some ⟨1, 2⟩) [some 1]).prepend none).Values.countP
       (fun v => isNaN v)) = 1) ∧
    (((newSeriesInt64 "x" (some ⟨1, 2⟩) [some 1]).prepend none).nilCount = 0 ∧
     ((newSeriesInt64 "x" (some ⟨1, 2⟩) [some 1]).prepend none).values =
       [none, some 1] ∧
     (((newSeriesInt64 "x" (some ⟨1, 2⟩) [some 1]).prepend none).values.countP
       (fun v => v.isNone)) = 1) := by
  decide

/-- C2, counterexample: sorting the contents [3.0, absent, 1.0, absent] with
the descending flag yields [3.0, 1.0, absent, absent], not the claimed
[absent, absent, 3.0, 1.0]: negating the ascending comparator sends
present-vs-absent comparisons to true, so absences go last when
descending. -/
theorem c2_counterexample :
    ((newSeriesFloat64 "s" none [some 3, none, some 1, none]).sort true).Values =
      [some 3, some 1, none, none] ∧
    ([some 3, some 1, none, none] : List F64) ≠ [none, none, some 3, some 1] := by
  decide

/-- C2, amended: sorting [3.0, absent, 1.0, absent] ascending yields
[absent, absent, 1.0, 3.0] (absences first), but sorting it descending
yields [3.0, 1.0, absent, absent]: absences are placed first only for
ascending and last for descending. -/
theorem c2_sort_absence_placement :
    ((newSeriesFloat64 "s" none [some 3, none, some 1, none]).sort false).Values =
      [none, none, some 1, some 3] ∧
    ((newSeriesFloat64 "s" none [some 3, none, some 1, none]).sort true).Values =
      [some 3, some 1, none, none] := by
  decide

/-- C9: for every non-empty Series (either variant) and every Range that
resolves successfully, the copy's `nilCount` is the source's entire
`nilCount` — a snapshot of the whole field, not a count over the copied
sub-range — and consequently (concrete instance) the copy's `nilCount` can
exceed the number of absent slots the copy contains. -/
theorem c9_copy_nilcount_snapshot :
    (∀ (s : SeriesFloat64) (r : RangeSpec) (a b : Int),
        r.Limits s.Values.length = Except.ok (a, b) →
        s.copy [r] = Except.ok
          { valFormatter := s.valFormatter, name := s.name,
            Values := (s.Values.drop a.toNat).take (b.toNat + 1 - a.toNat),
            nilCount := s.nilCount, cap := b.toNat + 1 - a.toNat }) ∧
    (∀ (s : SeriesInt64) (r : RangeSpec) (a b : Int),
        r.Limits s.values.length = Except.ok (a, b) →
        s.copy [r] = Except.ok
          { valFormatter := s.valFormatter, name := s.name,
            values := (s.values.drop a.toNat).take (b.toNat + 1 - a.toNat),
            nilCount := s.nilCount, cap := b.toNat + 1 - a.toNat }) ∧
    (∃ c, (newSeriesFloat64 "s" none [none, some 1]).copy [RangeSpec.bounds 1 1] =
        Except.ok c ∧
      c.nilCount = 1 ∧ c.Values.countP (fun v => isNaN v) = 0 ∧
      (c.Values.countP (fun v => isNaN v) : Int) < c.nilCount) := by
  refine ⟨?_, ?_, ?_⟩
  · intro s r a b h
    obtain ⟨h0, hab, hbn⟩ := rangeSpec_limits_ok h
    have hne : ¬ s.Values.length = 0 := by omega
    simp only [SeriesFloat64.copy, if_neg hne, h]
  · intro s r a b h
    obtain ⟨h0, hab, hbn⟩ := rangeSpec_limits_ok h
    have hne : ¬ s.values.length = 0 := by omega
    simp only [SeriesInt64.copy, if_neg hne, h]
  · exact ⟨{ valFormatter := DefaultValueFormatterF, name := "s",
             Values := [some 1], nilCount := 1, cap := 1 },
           rfl, rfl, rfl, by decide⟩

/-- C9 witness: the snapshot theorem applied to the concrete two-row series
[absent, 1.0] copied over the sub-range [1,1]. -/
theorem c9_copy_nilcount_snapshot_witness :
    (RangeSpec.bounds 1 1).Limits
        (newSeriesFloat64 "s" none [none, some 1]).Values.length =
      Except.ok (1, 1) ∧
    (newSeriesFloat64 "s" none [none, some 1]).copy [RangeSpec.bounds 1 1] =
      Except.ok { valFormatter := DefaultValueFormatterF, name := "s",
                  Values := [some 1], nilCount := 1, cap := 1 } :=
  ⟨rfl, by
    have h := c9_copy_nilcount_snapshot.1 (newSeriesFloat64 "s" none [none, some 1])
      (RangeSpec.bounds 1 1) 1 1 rfl
    exact h⟩

/-- C8: for every Series (either variant), `Swap` on two distinct valid rows
exchanges exactly those two slots and leaves every other row, the name, the
`nilCount` and the formatter unchanged; and `Swap(row, row)` — for any
integer whatsoever, in range or not — is a complete no-op on the Series
state. -/
theorem c8_swap_exchanges_or_noop :
    (∀ (s : SeriesFloat64) (r1 r2 : Int),
        r1 ≠ r2 → 0 ≤ r1 → r1 < (s.Values.length : Int) →
        0 ≤ r2 → r2 < (s.Values.length : Int) →
        ∃ t, s.swap r1 r2 = Except.ok t ∧
          t.name = s.name ∧ t.nilCount = s.nilCount ∧
          t.valFormatter = s.valFormatter ∧
          t.Values.getD r1.toNat nanF = s.Values.getD r2.toNat nanF ∧
          t.Values.getD r2.toNat nanF = s.Values.getD r1.toNat nanF ∧
          ∀ i : Nat, (i : Int) ≠ r1 → (i : Int) ≠ r2 →
            t.Values.getD i nanF = s.Values.getD i nanF) ∧
    (∀ (s : SeriesFloat64) (r : Int), s.swap r r = Except.ok s) ∧
    (∀ (s : SeriesInt64) (r1 r2 : Int),
        r1 ≠ r2 → 0 ≤ r1 → r1 < (s.values.length : Int) →
        0 ≤ r2 → r2 < (s.values.length : Int) →
        ∃ t, s.swap r1 r2 = Except.ok t ∧
          t.name = s.name ∧ t.nilCount = s.nilCount ∧
          t.valFormatter = s.valFormatter ∧
          t.values.getD r1.toNat none = s.values.getD r2.toNat none ∧
          t.values.getD r2.toNat none = s.values.getD r1.toNat none ∧
          ∀ i : Nat, (i : Int) ≠ r1 → (i : Int) ≠ r2 →
            t.values.getD i none = s.values.getD i none) ∧
    (∀ (s : SeriesInt64) (r : Int), s.swap r r = Except.ok s) := by
  refine ⟨?_, ?_, ?_, ?_⟩
  · intro s r1 r2 hne h10 h11 h20 h21
    have h12 : r1.toNat ≠ r2.toNat := by omega
    have hlt1 : r1.toNat < s.Values.length := by omega
    have hlt2 : r2.toNat < s.Values.length := by omega
    unfold SeriesFloat64.swap
    rw [if_neg hne, if_pos ⟨h10, h11, h20, h21⟩]
    refine ⟨_, rfl, rfl, rfl, rfl, ?_, ?_, ?_⟩
    · simp [List.getD, List.getElem?_set_ne h12.symm, List.getElem?_set_self, hlt1]
    · simp [List.getD, List.getElem?_set_self, hlt2]
    · intro i hi1 hi2
      have hne1 : r1.toNat ≠ i := by omega
      have hne2 : r2.toNat ≠ i := by omega
      simp [List.getD, List.getElem?_set_ne hne1, List.getElem?_set_ne hne2]
  · intro s r
    simp [SeriesFloat64.swap]
  · intro s r1 r2 hne h10 h11 h20 h21
    have h12 : r1.toNat ≠ r2.toNat := by omega
    have hlt1 : r1.toNat < s.values.length := by omega
    have hlt2 : r2.toNat < s.values.length := by omega
    unfold SeriesInt64.swap
    rw [if_neg hne, if_pos ⟨h10, h11, h20, h21⟩]
    refine ⟨_, rfl, rfl, rfl, rfl, ?_, ?_, ?_⟩
    · simp [List.getD, List.getElem?_set_ne h12.symm, List.getElem?_set_self, hlt1]
    · simp [List.getD, List.getElem?_set_self, hlt2]
    · intro i hi1 hi2
      have hne1 : r1.toNat ≠ i := by omega
      have hne2 : r2.toNat ≠ i := by omega
      simp [List.getD, List.getElem?_set_ne hne1, List.getElem?_set_ne hne2]
  · intro s r
    simp [SeriesInt64.swap]

/-- C8 witness: the exchange branch applied to the concrete two-row series
[1.0, 2.0] at rows 0 and 1. -/
theorem c8_swap_witness :
    (0 : Int) ≠ 1 ∧
    (∃ t, (newSeriesFloat64 "w" none [some 1, some 2]).swap 0 1 = Except.ok t ∧
      t.name = (newSeriesFloat64 "w" none [some 1, some 2]).name ∧
      t.nilCount = (newSeriesFloat64 "w" none [some 1, some 2]).nilCount ∧
      t.valFormatter = (newSeriesFloat64 "w" none [some 1, some 2]).valFormatter ∧
      t.Values.getD (0 : Int).toNat nanF =
        (newSeriesFloat64 "w" none [some 1, some 2]).Values.getD (1 : Int).toNat nanF ∧
      t.Values.getD (1 : Int).toNat nanF =
        (newSeriesFloat64 "w" none [some 1, some 2]).Values.getD (0 : Int).toNat nanF ∧
      ∀ i : Nat, (i : Int) ≠ 0 → (i : Int) ≠ 1 →
        t.Values.getD i nanF =
          (newSeriesFloat64 "w" none [some 1, some 2]).Values.getD i nanF) :=
  ⟨by decide,
   c8_swap_exchanges_or_noop.1 (newSeriesFloat64 "w" none [some 1, some 2]) 0 1
     (by decide) (by decide) (by decide) (by decide) (by decide)⟩

/-- Once past its first iteration (flag false), the historical loop is the
plain level fold. -/
theorem sesLevelLoop_flag_false (α : ℚ) (rest : List F64) (st : F64) :
    (rest.foldl
      (fun (acc : F64 × Bool) xt =>
        if acc.2 then (xt, false)
        else (fAdd (fMulC α xt) (fMulC (1 - α) acc.1), false))
      (st, false)).1 =
    rest.foldl (fun st2 xt => fAdd (fMulC α xt) (fMulC (1 - α) st2)) st := by
  induction rest generalizing st with
  | nil => rfl
  | cons x xs ih =>
      simp only [List.foldl_cons, Bool.false_eq_true, if_false]
      exact ih _

/-- The source's historical loop on a non-empty window computes the spec's
level recursion seeded at the window's head. -/
theorem sesLevelLoop_eq_spec (α : ℚ) (x0 : F64) (rest : List F64) :
    sesLevelLoop α (x0 :: rest) = specSESLevel α x0 rest := by
  unfold sesLevelLoop specSESLevel
  simp only [List.foldl_cons, if_true]
  exact sesLevelLoop_flag_false α rest x0

/-- The source's forecast loop is the spec's forward recursion. -/
theorem sesForecastLoop_eq_spec (α : ℚ) (xend : F64) :
    ∀ (n : Nat) (st : F64), sesForecastLoop α xend n st = specSESForecast α xend st n := by
  intro n
  induction n with
  | zero => intro st; rfl
  | succ k ih =>
      intro st
      simp only [sesForecastLoop, specSESForecast]
      exact congrArg _ (ih _)

/-- The spec's forward recursion produces exactly `n` values. -/
theorem specSESForecast_length (α : ℚ) (xend : F64) :
    ∀ (n : Nat) (st : F64), (specSESForecast α xend st n).length = n := by
  intro n
  induction n with
  | zero => intro st; rfl
  | succ k ih =>
      intro st
      simp only [specSESForecast, List.length_cons]
      exact congrArg _ (ih _)

/-- C7: for every float series, resolved range with at least two values,
`α ∈ [0,1]` and horizon `m ≥ 1`, `SimpleExponentialSmoothing` succeeds and
returns a fresh dense-sentinel series of exactly `m` values computed by the
spec's recursion — level `S₀ = x[start]`, `Sᵢ = α·xᵢ + (1−α)·Sᵢ₋₁` over the
historical window, then `m` forward steps `Sₜ₊₁ = α·x[end] + (1−α)·Sₜ`. -/
theorem c7_ses_matches_spec_recursion (s : SeriesFloat64) (α : ℚ) (m : Int)
    (r : RangeSpec) (a b : Int)
    (hlim : r.Limits s.Values.length = Except.ok (a, b))
    (hwin : 1 ≤ b - a) (hm : 1 ≤ m) (hα0 : 0 ≤ α) (hα1 : α ≤ 1) :
    ∃ x0 rest,
      (s.Values.drop a.toNat).take (b.toNat + 1 - a.toNat) = x0 :: rest ∧
      simpleExponentialSmoothing s α m [r] =
        Except.ok { valFormatter := DefaultValueFormatterF
                    name := "forecast"
                    Values := specSESForecast α (s.Values.getD b.toNat nanF)
                      (specSESLevel α x0 rest) m.toNat
                    nilCount := 0
                    cap := m.toNat } ∧
      (specSESForecast α (s.Values.getD b.toNat nanF)
        (specSESLevel α x0 rest) m.toNat).length = m.toNat := by
  obtain ⟨h0, hab, hbn⟩ := rangeSpec_limits_ok hlim
  have hne : ¬ s.Values.length = 0 := by omega
  have hwlen : ((s.Values.drop a.toNat).take (b.toNat + 1 - a.toNat)).length ≠ 0 := by
    simp only [List.length_take, List.length_drop]
    omega
  have hnnil : (s.Values.drop a.toNat).take (b.toNat + 1 - a.toNat) ≠ [] := by
    intro hnil
    rw [hnil] at hwlen
    exact hwlen rfl
  obtain ⟨x0, rest, hw⟩ := List.exists_cons_of_ne_nil hnnil
  refine ⟨x0, rest, hw, ?_, specSESForecast_length α _ m.toNat _⟩
  have hc1 : ¬ b - a < 1 := by omega
  have hc2 : ¬ m ≤ 0 := by omega
  have hc3 : ¬ (α < 0 ∨ α > 1) := by
    push_neg
    exact ⟨hα0, hα1⟩
  simp only [simpleExponentialSmoothing, if_neg hne, hlim, if_neg hc1, if_neg hc2,
    if_neg hc3, hw, sesLevelLoop_eq_spec, sesForecastLoop_eq_spec]

/-- C7 witness: the recursion theorem applied to the concrete series
[10, 12, 13, 12, 15] with α = 1/2 and m = 2, whose forecast evaluates to
[14.25, 14.625] ( = [57/4, 117/8]). -/
theorem c7_ses_witness :
    (RangeSpec.whole.Limits
        (newSeriesFloat64 "data" none
          [some 10, some 12, some 13, some 12, some 15]).Values.length =
      Except.ok (0, 4) ∧
     (1 : Int) ≤ 4 - 0 ∧ (1 : Int) ≤ 2 ∧ (0 : ℚ) ≤ 1/2 ∧ (1/2 : ℚ) ≤ 1) ∧
    (∃ f, simpleExponentialSmoothing
        (newSeriesFloat64 "data" none
          [some 10, some 12, some 13, some 12, some 15]) (1/2) 2
        [RangeSpec.whole] = Except.ok f ∧
      f.Values = [some (57/4 : ℚ), some (117/8 : ℚ)] ∧ f.Values.length = 2) := by
  obtain ⟨x0, rest, hw, hses, hlen⟩ := c7_ses_matches_spec_recursion
    (newSeriesFloat64 "data" none [some 10, some 12, some 13, some 12, some 15])
    (1/2) 2 RangeSpec.whole 0 4 (by decide) (by decide) (by decide)
    (by norm_num) (by norm_num)
  have h5 : ((newSeriesFloat64 "data" none
      [some 10, some 12, some 13, some 12, some 15]).Values.drop
        (0 : Int).toNat).take ((4 : Int).toNat + 1 - (0 : Int).toNat) =
      [some (10 : ℚ), some 12, some 13, some 12, some 15] := by decide
  rw [h5] at hw
  injection hw with h1 h2
  subst h1
  subst h2
  have hg : (newSeriesFloat64 "data" none
      [some 10, some 12, some 13, some 12, some 15]).Values.getD
        (4 : Int).toNat nanF = some (15 : ℚ) := by decide
  rw [hg] at hses
  refine ⟨⟨by decide, by decide, by decide, by norm_num, by norm_num⟩,
    _, hses, ?_, ?_⟩
  · show specSESForecast (1/2) (some (15 : ℚ))
      (specSESLevel (1/2) (some (10 : ℚ)) [some 12, some 13, some 12, some 15])
      (2 : Int).toNat = [some (57/4 : ℚ), some (117/8 : ℚ)]
    norm_num [specSESForecast, specSESLevel, fAdd, fMulC, List.foldl]
  · show (specSESForecast (1/2) (some (15 : ℚ))
      (specSESLevel (1/2) (some (10 : ℚ)) [some 12, some 13, some 12, some 15])
      (2 : Int).toNat).length = 2
    rw [specSESForecast_length]
    decide

/-!
## Stability of the sort

`sort.SliceStable` permutes the slice in place; two equal floats are
indistinguishable afterwards, so stability is stated on an index-tagged run
of the same algorithm (`List.enum` pairs `(original row, value)`, comparator
reading only the value): the tagged run performs exactly the comparisons and
exchanges of the untagged one, and `insertionSortGo_tagged_*` below prove the
projection back.  `dupOrderF` says equal present values keep their original
row order.
-/

/-- `insRev` places `x` after the scanned prefix of elements it passes: the
passed elements are exactly the `takeWhile` of the comparator. -/
theorem insRev_eq (c : α → α → Bool) (x : α) :
    ∀ l : List α,
      insRev c x l = l.takeWhile (fun e => c x e) ++ x :: l.dropWhile (fun e => c x e) := by
  intro l
  induction l with
  | nil => rfl
  | cons e es ih =>
      by_cases h : c x e
      · simp only [insRev, List.takeWhile_cons, List.dropWhile_cons, h, if_true,
          List.cons_append]
        exact congrArg _ ih
      · simp only [insRev, List.takeWhile_cons, List.dropWhile_cons, h,
          Bool.false_eq_true, if_false, List.nil_append]

/-- Members of one insertion step are the inserted element or prior
members. -/
theorem mem_of_mem_insGo (c : α → α → Bool) (x : α) (acc : List α) (a : α)
    (h : a ∈ insGo c x acc) : a = x ∨ a ∈ acc := by
  unfold insGo at h
  rw [List.mem_reverse, insRev_eq, List.mem_append, List.mem_cons] at h
  rcases h with h | h | h
  · exact Or.inr (List.mem_reverse.mp ((List.takeWhile_sublist _).subset h))
  · exact Or.inl h
  · exact Or.inr (List.mem_reverse.mp ((List.dropWhile_sublist _).subset h))

/-- One insertion step preserves a pairwise relation, provided every prior
element relates forward to `x` and `x` relates forward to every element it
passes. -/
theorem insGo_pairwise {R : α → α → Prop} (c : α → α → Bool) (x : α)
    (acc : List α) (hacc : acc.Pairwise R)
    (hlow : ∀ e ∈ acc, R e x)
    (hpass : ∀ e ∈ acc, c x e = true → R x e) :
    (insGo c x acc).Pairwise R := by
  unfold insGo
  rw [List.pairwise_reverse, insRev_eq]
  have hrev : acc.reverse.Pairwise (flip R) :=
    (List.pairwise_reverse).mpr (hacc.imp (fun h => h))
  rw [← List.takeWhile_append_dropWhile (p := fun e => c x e) (l := acc.reverse),
    List.pairwise_append] at hrev
  obtain ⟨hT, hD, hTD⟩ := hrev
  rw [List.pairwise_append]
  refine ⟨hT, ?_, ?_⟩
  · rw [List.pairwise_cons]
    refine ⟨fun b hb => ?_, hD⟩
    exact hlow b (List.mem_reverse.mp ((List.dropWhile_sublist _).subset hb))
  · intro a ha b hb
    rcases List.mem_cons.mp hb with rfl | hbD
    · exact hpass a (List.mem_reverse.mp ((List.takeWhile_sublist _).subset ha))
        (List.mem_takeWhile_imp ha)
    · exact hTD a ha b hbD

/-- The whole insertion sort preserves a pairwise relation over elements with
strictly increasing tags, provided lower-tagged elements always relate
forward and passing a lower-tagged element still relates forward. -/
theorem insertionSortGo_stable_aux {R : α → α → Prop} (c : α → α → Bool)
    (tag : α → Nat)
    (hmono : ∀ a b, tag a < tag b → R a b)
    (hpass : ∀ x e, tag e < tag x → c x e = true → R x e) :
    ∀ (l acc : List α), acc.Pairwise R →
      (∀ a ∈ acc, ∀ b ∈ l, tag a < tag b) →
      l.Pairwise (fun a b => tag a < tag b) →
      (l.foldl (fun ac x => insGo c x ac) acc).Pairwise R := by
  intro l
  induction l with
  | nil =>
      intro acc hacc _ _
      simpa using hacc
  | cons x xs ih =>
      intro acc hacc hcross hl
      rw [List.pairwise_cons] at hl
      obtain ⟨hxxs, hxs⟩ := hl
      rw [List.foldl_cons]
      apply ih
      · refine insGo_pairwise c x acc hacc ?_ ?_
        · intro e he
          exact hmono e x (hcross e he x (List.mem_cons_self x xs))
        · intro e he hce
          exact hpass x e (hcross e he x (List.mem_cons_self x xs)) hce
      · intro a ha b hb
        rcases mem_of_mem_insGo c x acc a ha with rfl | haacc
        · exact hxxs b hb
        · exact hcross a haacc b (List.mem_cons_of_mem x hb)
      · exact hxs

/-- The insertion step commutes with projecting out the tags when the
comparator only reads the projection. -/
theorem insRev_map {α β : Type} (c : β → β → Bool) (f : α → β) (x : α) :
    ∀ l : List α,
      (insRev (fun a b => c (f a) (f b)) x l).map f = insRev c (f x) (l.map f) := by
  intro l
  induction l with
  | nil => rfl
  | cons e es ih =>
      simp only [insRev, List.map_cons]
      by_cases h : c (f x) (f e)
      · rw [if_pos h, if_pos h, List.map_cons, ih]
      · rw [if_neg h, if_neg h]
        rfl

/-- `insGo` commutes with the projection. -/
theorem insGo_map {α β : Type} (c : β → β → Bool) (f : α → β) (x : α) (l : List α) :
    (insGo (fun a b => c (f a) (f b)) x l).map f = insGo c (f x) (l.map f) := by
  unfold insGo
  rw [List.map_reverse, insRev_map, List.map_reverse]

/-- The full sort commutes with the projection. -/
theorem insertionSortGo_map {α β : Type} (c : β → β → Bool) (f : α → β) :
    ∀ (l acc : List α),
      ((l.foldl (fun ac x => insGo (fun a b => c (f a) (f b)) x ac) acc).map f) =
        (l.map f).foldl (fun ac x => insGo c x ac) (acc.map f) := by
  intro l
  induction l with
  | nil => intro acc; rfl
  | cons x xs ih =>
      intro acc
      rw [List.map_cons, List.foldl_cons, List.foldl_cons, ih, insGo_map]

/-- Sorting the tagged values and projecting the values back is sorting the
values: the tagged run mirrors the real one. -/
theorem insertionSortGo_tagged_F (d : Bool) (l : List F64) :
    (insertionSortGo (sortCmpFTag d) l.enum).map Prod.snd =
      insertionSortGo (sortCmpF d) l := by
  have h := insertionSortGo_map (sortCmpF d) (Prod.snd (α := Nat) (β := F64)) l.enum []
  simpa [insertionSortGo, sortCmpFTag, List.enum_map_snd] using h

/-- On a tie of present values the ascending comparator answers false (so
the algorithm never moves the later duplicate past the earlier one). -/
theorem sortCmpFTag_tie_false (x e : Nat × F64) (h : x.2 = e.2) (hnn : x.2 ≠ none) :
    sortCmpFTag false x e = false := by
  obtain ⟨q, hq⟩ := Option.ne_none_iff_exists'.mp hnn
  unfold sortCmpFTag sortCmpF
  rw [← h, hq]
  simp [isNaN]

/-- Original rows tag `enum` in strictly increasing order. -/
theorem enum_pairwise_fst {γ : Type} (l : List γ) :
    l.enum.Pairwise (fun a b => a.1 < b.1) := by
  have h : (l.enum.map Prod.fst).Pairwise (fun a b => a < b) := by
    rw [List.enum_map_fst]
    exact List.pairwise_lt_range _
  exact (List.pairwise_map).mp h

/-- Tie of present int64 values: the ascending comparator answers false. -/
theorem sortCmpITag_tie_false (x e : Nat × I64) (h : x.2 = e.2) (hnn : x.2 ≠ none) :
    sortCmpITag false x e = false := by
  obtain ⟨q, hq⟩ := Option.ne_none_iff_exists'.mp hnn
  unfold sortCmpITag sortCmpI
  rw [← h, hq]
  simp

/-- Tagged-run projection for the int64 sort. -/
theorem insertionSortGo_tagged_I (d : Bool) (l : List I64) :
    (insertionSortGo (sortCmpITag d) l.enum).map Prod.snd =
      insertionSortGo (sortCmpI d) l := by
  have h := insertionSortGo_map (sortCmpI d) (Prod.snd (α := Nat) (β := I64)) l.enum []
  simpa [insertionSortGo, sortCmpITag, List.enum_map_snd] using h

/-- C4, counterexample: sorting the two equal present values [5.0, 5.0] with
the descending flag exchanges them — the index-tagged run of the sorting
algorithm (whose comparisons and swaps coincide with the real one) ends with
the rows in order (1, 0), because the negated comparator reports the tie as
"less than" and the insertion sort therefore swaps the pair.  The relative
input order of duplicate present values is not preserved for descending. -/
theorem c4_counterexample :
    ((newSeriesFloat64 "d" none [some 5, some 5]).sort true).Values =
      [some 5, some 5] ∧
    insertionSortGo (sortCmpFTag true)
        ((newSeriesFloat64 "d" none [some 5, some 5]).Values.enum) =
      [(1, some 5), (0, some 5)] ∧
    ¬ (insertionSortGo (sortCmpFTag true)
        ((newSeriesFloat64 "d" none [some 5, some 5]).Values.enum)).Pairwise
        dupOrderF := by
  refine ⟨by decide, by decide, ?_⟩
  intro h
  have h2 : insertionSortGo (sortCmpFTag true)
      ((newSeriesFloat64 "d" none [some 5, some 5]).Values.enum) =
      [(1, some 5), (0, some 5)] := by decide
  rw [h2, List.pairwise_cons] at h
  have h3 := h.1 (0, some 5) (List.mem_singleton.mpr rfl) ⟨rfl, by decide⟩
  exact absurd h3 (by decide)

/-- C4, amended: for every Series (either variant) in the ≤ 20-row regime —
where the modelled stable sort is bit-for-bit Go's `sort.SliceStable` —
ascending `Sort` preserves the relative input order of duplicate present
values: the index-tagged run of the algorithm (which projects back onto the
actual `Sort` result) keeps equal present values in increasing original-row
order.  Descending `Sort` does not (see the counterexample); its value
sequence is unchanged only because duplicates are indistinguishable. -/
theorem c4_sort_stability_ascending :
    (∀ s : SeriesFloat64, s.Values.length ≤ 20 →
      (s.sort false).Values =
        (insertionSortGo (sortCmpFTag false) s.Values.enum).map Prod.snd ∧
      (insertionSortGo (sortCmpFTag false) s.Values.enum).Pairwise dupOrderF) ∧
    (∀ s : SeriesInt64, s.values.length ≤ 20 →
      (s.sort false).values =
        (insertionSortGo (sortCmpITag false) s.values.enum).map Prod.snd ∧
      (insertionSortGo (sortCmpITag false) s.values.enum).Pairwise dupOrderI) := by
  constructor
  · intro s _
    constructor
    · exact (insertionSortGo_tagged_F false s.Values).symm
    · refine insertionSortGo_stable_aux (sortCmpFTag false) Prod.fst ?_ ?_
        s.Values.enum [] List.Pairwise.nil (by intro a ha; cases ha)
        (enum_pairwise_fst s.Values)
      · intro a b hab
        exact fun _ => hab
      · intro x e hlt hce
        intro hprem
        have hfalse := sortCmpFTag_tie_false x e hprem.1 hprem.2
        rw [hfalse] at hce
        cases hce
  · intro s _
    constructor
    · exact (insertionSortGo_tagged_I false s.values).symm
    · refine insertionSortGo_stable_aux (sortCmpITag false) Prod.fst ?_ ?_
        s.values.enum [] List.Pairwise.nil (by intro a ha; cases ha)
        (enum_pairwise_fst s.values)
      · intro a b hab
        exact fun _ => hab
      · intro x e hlt hce
        intro hprem
        have hfalse := sortCmpITag_tie_false x e hprem.1 hprem.2
        rw [hfalse] at hce
        cases hce

/-- C4 witness: the ascending-stability theorem applied to the concrete
three-row series [2.0, 1.0, 2.0], whose two duplicates stay in row order
0 before 2. -/
theorem c4_sort_stability_witness :
    (newSeriesFloat64 "w" none [some 2, some 1, some 2]).Values.length ≤ 20 ∧
    (((newSeriesFloat64 "w" none [some 2, some 1, some 2]).sort false).Values =
      (insertionSortGo (sortCmpFTag false)
        (newSeriesFloat64 "w" none [some 2, some 1, some 2]).Values.enum).map
          Prod.snd ∧
     (insertionSortGo (sortCmpFTag false)
        (newSeriesFloat64 "w" none [some 2, some 1, some 2]).Values.enum).Pairwise
        dupOrderF) :=
  ⟨by decide,
   c4_sort_stability_ascending.1 (newSeriesFloat64 "w" none [some 2, some 1, some 2])
     (by decide)⟩

end DataFrame
